import Mathlib

/-!
Verification of the rummypuzzles meld engine.

The source represents a card token as a string: either the literal
wildcard token `"*"`, or a one-character suit code followed by a decimal
rank (read back with `parseInt`).  We embed a token as an inductive value
carrying exactly the data the source ever extracts from the string: the
suit character (`token[0]`) and the numeric rank (`parseInt(token.slice(1))`).
Ranks are Lean `Int` because `parseInt` yields a (possibly signed) integer.
-/

namespace RummyPuzzles

/-- A card token: the wildcard `"*"`, or a suit character plus a rank. -/
inductive Card where
  | wild
  | mk (suit : Char) (rank : Int)
deriving DecidableEq

/-- The source's test `c === '*'`. -/
def Card.isWild : Card → Bool
  | .wild => true
  | .mk _ _ => false

/-- The source's `c[0]` (first character of the token).  For the wildcard
token `"*"` the first character is `'*'` itself. -/
def Card.suit : Card → Char
  | .wild => '*'
  | .mk s _ => s

/-- The source's `c === '*' ? null : parseInt(c.slice(1))`. -/
def Card.rank? : Card → Option Int
  | .wild => none
  | .mk _ r => some r

/-- Comparator used by `isValidRun`'s sort, as a boolean "less-or-equal":
the source comparator returns `1` when `a` is `null`, `-1` when `b` is
`null`, and `a - b` otherwise, i.e. every `null` is ordered after every
real rank.  (For two `null`s the source comparator is inconsistent, which
JavaScript leaves implementation-defined; since `null`s are
indistinguishable, every stable sort produces the same list, and we take
the consistent version.) -/
def optLeB : Option Int → Option Int → Bool
  | some a, some b => decide (a ≤ b)
  | some _, none => true
  | none, none => true
  | none, some _ => false

/-- The sort relation of `isValidRun`, as a proposition. -/
def optLe (a b : Option Int) : Prop := optLeB a b = true

instance : DecidableRel optLe := fun a b => decidable_of_iff (optLeB a b = true) Iff.rfl

instance : IsTotal (Option Int) optLe :=
  ⟨fun a b => by cases a <;> cases b <;> simp [optLe, optLeB] <;> omega⟩

instance : IsTrans (Option Int) optLe :=
  ⟨fun a b c => by cases a <;> cases b <;> cases c <;> simp [optLe, optLeB] <;> omega⟩

instance : IsAntisymm (Option Int) optLe :=
  ⟨fun a b => by cases a <;> cases b <;> simp [optLe, optLeB] <;> omega⟩

/-- The ranks of the non-wildcard cards, in input order. -/
def realRanks (cards : List Card) : List Int := cards.filterMap Card.rank?

/-- The source's `cards.filter(c => c === '*').length`. -/
def wildCount (cards : List Card) : Nat := (cards.filter Card.isWild).length

/-- The source's loop `while (sorted.length > 0 && sorted[last] === null) sorted.pop()`:
remove the trailing `null`s. -/
def dropTrailingNones (l : List (Option Int)) : List (Option Int) :=
  (l.reverse.dropWhile Option.isNone).reverse

/-- The validation loop of `isValidRun`, iterating over `sorted` from index 1
with accumulators `lastNum` and `wildcardsAvailable`. -/
def runWalk : List (Option Int) → Option Int → Int → Bool
  | [], _, _ => true
  | none :: rest, lastNum, w => runWalk rest lastNum (w - 1)
  | some n :: rest, none, w => runWalk rest (some n) w
  | some n :: rest, some lastNum, w =>
    let gap := n - lastNum - 1
    if gap < 0 then false
    else if gap > w then false
    else runWalk rest (some n) (w - gap)

/-- The list the walk of `isValidRun` runs over: ranks (wildcards as `null`),
sorted with `null`s last, trailing `null`s removed. -/
def walkInput (cards : List Card) : List (Option Int) :=
  dropTrailingNones ((cards.map Card.rank?).insertionSort optLe)

/-- `isValidRun` from the source (part_002 lines 49-97 and identically
part_003 lines 43-91).  When `walkInput` is empty the source reads
`sorted[0]` as `undefined` and the loop body never runs, returning `true`;
that branch is unreachable because a non-wildcard card exists there. -/
def isValidRun (cards : List Card) : Bool :=
  if cards.length < 3 then false
  else
    match cards.find? fun c => !c.isWild with
    | none => false
    | some c0 =>
      if !(cards.all fun c => c.isWild || (c.suit == c0.suit)) then false
      else
        match walkInput cards with
        | [] => true
        | n0 :: rest => runWalk rest n0 (wildCount cards : Int)

/-- `isValidGroup` from the source (part_002 lines 99-112): JavaScript's
`new Set(...).size` is the number of distinct values, embedded as
`List.dedup.length`.  The source compares rank substrings with `===`;
for decimal rank tokens this coincides with numeric rank equality. -/
def isValidGroup (cards : List Card) : Bool :=
  if cards.length < 3 then false
  else
    match cards.find? fun c => !c.isWild with
    | none => false
    | some c0 =>
      if !(cards.all fun c => c.isWild || (c.rank? == c0.rank?)) then false
      else
        ((cards.filter fun c => !c.isWild).map Card.suit).dedup.length
          == (cards.filter fun c => !c.isWild).length

/-- `isValidMeld` from the source (part_002 lines 114-116). -/
def isValidMeld (cards : List Card) : Bool :=
  isValidRun cards || isValidGroup cards

/-- The pairwise gap walk described by the specification: over the
ascending-sorted real ranks, each adjacent gap must be non-negative and
payable from the remaining wildcard budget, which it consumes. -/
def gapWalk : List Int → Int → Bool
  | [], _ => true
  | [_], _ => true
  | a :: b :: rest, w =>
    let gap := b - a - 1
    if gap < 0 then false
    else if gap > w then false
    else gapWalk (b :: rest) (w - gap)

/-- The ascending sort of the real (non-wildcard) ranks. -/
def sortedRealRanks (cards : List Card) : List Int :=
  (realRanks cards).insertionSort (· ≤ ·)

/-! ### Structure of the sorted rank list

The comparator orders every `null` after every real rank, so the sorted
list is the ascending real ranks followed by a block of `null`s, and
removing the trailing `null`s leaves exactly the ascending real ranks. -/

lemma filterMap_id_map_rank (cards : List Card) :
    (cards.map Card.rank?).filterMap id = realRanks cards := by
  rw [List.filterMap_map]; rfl

lemma count_none_map_rank (cards : List Card) :
    (cards.map Card.rank?).count none = wildCount cards := by
  induction cards with
  | nil => rfl
  | cons c t ih =>
    cases c <;> simp [List.count_cons, Card.rank?, wildCount, Card.isWild,
      List.filter_cons] at ih ⊢ <;> omega

lemma option_split_perm (l : List (Option Int)) :
    ((l.filterMap id).map some ++ List.replicate (l.count none) none).Perm l := by
  induction l with
  | nil => simp
  | cons a t ih =>
    cases a with
    | none =>
      have hc : (none :: t : List (Option Int)).count none = t.count none + 1 := by
        simp [List.count_cons]
      rw [hc]
      simp only [List.filterMap_cons, id]
      rw [List.replicate_succ]
      exact List.perm_middle.trans (ih.cons none)
    | some x =>
      have hc : (some x :: t : List (Option Int)).count none = t.count none := by
        simp [List.count_cons]
      rw [hc]
      simp only [List.filterMap_cons, id]
      exact (ih.cons (some x))

lemma sorted_some_append_none (xs : List Int) (k : Nat) (hxs : xs.Sorted (· ≤ ·)) :
    List.Sorted optLe (xs.map some ++ List.replicate k none) := by
  rw [List.Sorted, List.pairwise_append]
  refine ⟨?_, ?_, ?_⟩
  · rw [List.pairwise_map]
    exact hxs.imp fun h => by simpa [optLe, optLeB] using h
  · rw [List.pairwise_replicate]
    right; simp [optLe, optLeB]
  · intro a ha b hb
    obtain ⟨x, -, rfl⟩ := List.mem_map.mp ha
    rw [List.eq_of_mem_replicate hb]
    simp [optLe, optLeB]

lemma sort_decomp (l : List (Option Int)) :
    l.insertionSort optLe =
      ((l.filterMap id).insertionSort (· ≤ ·)).map some ++
        List.replicate (l.count none) none := by
  refine List.eq_of_perm_of_sorted ?_ (List.sorted_insertionSort _ _) ?_
  · refine (List.perm_insertionSort _ _).trans ?_
    refine ((option_split_perm l).symm).trans ?_
    exact (List.Perm.append_right _ ((List.perm_insertionSort _ _).map some)).symm
  · exact sorted_some_append_none _ _ (List.sorted_insertionSort _ _)

lemma dropWhile_isNone_replicate_append (k : Nat) (t : List (Option Int)) :
    (List.replicate k (none : Option Int) ++ t).dropWhile Option.isNone =
      t.dropWhile Option.isNone := by
  induction k with
  | zero => simp
  | succ n ih => simpa [List.replicate_succ, List.dropWhile_cons] using ih

lemma dropWhile_isNone_map_some (xs : List Int) :
    (xs.map some).dropWhile Option.isNone = xs.map some := by
  cases xs <;> simp [List.dropWhile_cons]

lemma dropTrailing_decomp (xs : List Int) (k : Nat) :
    dropTrailingNones (xs.map some ++ List.replicate k none) = xs.map some := by
  unfold dropTrailingNones
  rw [List.reverse_append, List.reverse_replicate, dropWhile_isNone_replicate_append,
    ← List.map_reverse, dropWhile_isNone_map_some, ← List.map_reverse,
    List.reverse_reverse]

lemma walkInput_eq (cards : List Card) :
    walkInput cards = (sortedRealRanks cards).map some := by
  unfold walkInput sortedRealRanks
  rw [sort_decomp, filterMap_id_map_rank, count_none_map_rank, dropTrailing_decomp]

lemma runWalk_map_some (xs : List Int) (x w : Int) :
    runWalk (xs.map some) (some x) w = gapWalk (x :: xs) w := by
  induction xs generalizing x w with
  | nil => rfl
  | cons y ys ih =>
    simp only [List.map_cons, runWalk, gapWalk]
    split_ifs <;> simp [ih]

/-! ### Characterizations of the validators -/

lemma sortedRealRanks_ne_nil {cards : List Card} {c0 : Card}
    (hfind : cards.find? (fun c => !c.isWild) = some c0) :
    sortedRealRanks cards ≠ [] := by
  have hmem := List.mem_of_find?_eq_some hfind
  have hreal : c0.isWild = false := by simpa using List.find?_some hfind
  have hlen : (sortedRealRanks cards).length = (realRanks cards).length :=
    (List.perm_insertionSort _ _).length_eq
  intro h
  rw [h] at hlen
  have : ∃ r, r ∈ realRanks cards := by
    cases hc : c0 with
    | wild => rw [hc] at hreal; simp [Card.isWild] at hreal
    | mk s r =>
      exact ⟨r, List.mem_filterMap.mpr ⟨c0, hmem, by rw [hc]; rfl⟩⟩
  obtain ⟨r, hr⟩ := this
  have := List.length_pos_of_mem hr
  simp at hlen
  omega

lemma isValidRun_iff (cards : List Card) :
    isValidRun cards = true ↔
      3 ≤ cards.length ∧
      (∃ c0, cards.find? (fun c => !c.isWild) = some c0 ∧
        ∀ c ∈ cards, c.isWild = false → c.suit = c0.suit) ∧
      gapWalk (sortedRealRanks cards) (wildCount cards : Int) = true := by
  unfold isValidRun
  by_cases hlen : cards.length < 3
  · rw [if_pos hlen]
    constructor
    · intro h; simp at h
    · rintro ⟨h3, -⟩; omega
  · rw [if_neg hlen]
    cases hfind : cards.find? (fun c => !c.isWild) with
    | none =>
      simp only [hfind]
      constructor
      · intro h; simp at h
      · rintro ⟨-, ⟨c0, hc0, -⟩, -⟩; simp at hc0
    | some c0 =>
      simp only [hfind]
      by_cases hall : (cards.all fun c => c.isWild || (c.suit == c0.suit)) = true
      · rw [hall]
        simp only [Bool.not_true, Bool.false_eq_true, if_false]
        obtain ⟨s0, srest, hs⟩ : ∃ a t, sortedRealRanks cards = a :: t := by
          cases h : sortedRealRanks cards with
          | nil => exact absurd h (sortedRealRanks_ne_nil hfind)
          | cons a t => exact ⟨a, t, rfl⟩
        rw [walkInput_eq, hs]
        simp only [List.map_cons]
        rw [runWalk_map_some, ← hs]
        constructor
        · intro hg
          refine ⟨by omega, ⟨c0, rfl, ?_⟩, hg⟩
          intro c hc hcw
          have h := List.all_eq_true.mp hall c hc
          rw [hcw] at h
          simpa using h
        · rintro ⟨-, -, hg⟩
          exact hg
      · have hcond : (!(cards.all fun c => c.isWild || (c.suit == c0.suit))) = true := by
          simp only [Bool.not_eq_true']
          exact Bool.eq_false_iff.mpr (fun h => hall h)
        rw [hcond]
        simp only [if_true]
        constructor
        · intro h; simp at h
        · rintro ⟨-, ⟨c0', hc0', hsuit⟩, -⟩
          injection hc0' with h; subst h
          exfalso; apply hall
          rw [List.all_eq_true]
          intro c hc
          by_cases hcw : c.isWild = true
          · simp [hcw]
          · have := hsuit c hc (by simpa using hcw)
            simp [this]

lemma isValidGroup_iff (cards : List Card) :
    isValidGroup cards = true ↔
      3 ≤ cards.length ∧
      (∃ c0, cards.find? (fun c => !c.isWild) = some c0 ∧
        ∀ c ∈ cards, c.isWild = false → c.rank? = c0.rank?) ∧
      ((cards.filter fun c => !c.isWild).map Card.suit).dedup.length
        = (cards.filter fun c => !c.isWild).length := by
  unfold isValidGroup
  by_cases hlen : cards.length < 3
  · rw [if_pos hlen]
    constructor
    · intro h; simp at h
    · rintro ⟨h3, -⟩; omega
  · rw [if_neg hlen]
    cases hfind : cards.find? (fun c => !c.isWild) with
    | none =>
      simp only [hfind]
      constructor
      · intro h; simp at h
      · rintro ⟨-, ⟨c0, hc0, -⟩, -⟩; simp at hc0
    | some c0 =>
      simp only [hfind]
      by_cases hall : (cards.all fun c => c.isWild || (c.rank? == c0.rank?)) = true
      · rw [hall]
        simp only [Bool.not_true, Bool.false_eq_true, if_false]
        rw [beq_iff_eq]
        constructor
        · intro hdedup
          refine ⟨by omega, ⟨c0, rfl, ?_⟩, hdedup⟩
          intro c hc hcw
          have h := List.all_eq_true.mp hall c hc
          rw [hcw] at h
          simpa using h
        · rintro ⟨-, -, hdedup⟩
          exact hdedup
      · have hcond : (!(cards.all fun c => c.isWild || (c.rank? == c0.rank?))) = true := by
          simp only [Bool.not_eq_true']
          exact Bool.eq_false_iff.mpr (fun h => hall h)
        rw [hcond]
        simp only [if_true]
        constructor
        · intro h; simp at h
        · rintro ⟨-, ⟨c0', hc0', hrank⟩, -⟩
          injection hc0' with h; subst h
          exfalso; apply hall
          rw [List.all_eq_true]
          intro c hc
          by_cases hcw : c.isWild = true
          · simp [hcw]
          · have := hrank c hc (by simpa using hcw)
            simp [this]

/-! ### Permutation invariance machinery -/

lemma find_anchor_iff {β : Type} (f : Card → β) (cards : List Card) :
    (∃ c0, cards.find? (fun c => !c.isWild) = some c0 ∧
      ∀ c ∈ cards, c.isWild = false → f c = f c0) ↔
    ((∃ c ∈ cards, c.isWild = false) ∧
      ∀ c ∈ cards, ∀ d ∈ cards, c.isWild = false → d.isWild = false → f c = f d) := by
  constructor
  · rintro ⟨c0, hfind, hall⟩
    have hmem := List.mem_of_find?_eq_some hfind
    have hreal : c0.isWild = false := by simpa using List.find?_some hfind
    refine ⟨⟨c0, hmem, hreal⟩, ?_⟩
    intro c hc d hd hcr hdr
    rw [hall c hc hcr, hall d hd hdr]
  · rintro ⟨⟨w, hw, hwr⟩, hpair⟩
    have hsome : (cards.find? fun c => !c.isWild).isSome = true := by
      rw [List.find?_isSome]; exact ⟨w, hw, by simp [hwr]⟩
    obtain ⟨c0, hc0⟩ := Option.isSome_iff_exists.mp hsome
    refine ⟨c0, hc0, ?_⟩
    intro c hc hcr
    exact hpair c hc c0 (List.mem_of_find?_eq_some hc0) hcr
      (by simpa using List.find?_some hc0)

lemma sortedRealRanks_perm_eq {a b : List Card} (h : a.Perm b) :
    sortedRealRanks a = sortedRealRanks b := by
  refine List.eq_of_perm_of_sorted ?_ (List.sorted_insertionSort _ _)
    (List.sorted_insertionSort _ _)
  exact (List.perm_insertionSort _ _).trans
    ((h.filterMap Card.rank?).trans (List.perm_insertionSort _ _).symm)

lemma wildCount_perm_eq {a b : List Card} (h : a.Perm b) : wildCount a = wildCount b :=
  (h.filter _).length_eq

lemma bool_eq_of_imp {a b : Bool} (h1 : a = true → b = true)
    (h2 : b = true → a = true) : a = b := by
  cases a <;> cases b <;> simp_all

lemma isValidRun_perm_mono {a b : List Card} (h : a.Perm b) :
    isValidRun a = true → isValidRun b = true := by
  intro hv
  rw [isValidRun_iff] at hv ⊢
  obtain ⟨hA, hB, hC⟩ := hv
  refine ⟨h.length_eq ▸ hA, ?_, ?_⟩
  · rw [find_anchor_iff] at hB ⊢
    obtain ⟨⟨w, hw, hwr⟩, hpair⟩ := hB
    refine ⟨⟨w, h.mem_iff.mp hw, hwr⟩, ?_⟩
    intro c hc d hd hcr hdr
    exact hpair c (h.mem_iff.mpr hc) d (h.mem_iff.mpr hd) hcr hdr
  · rwa [← sortedRealRanks_perm_eq h, ← wildCount_perm_eq h]

lemma isValidGroup_perm_mono {a b : List Card} (h : a.Perm b) :
    isValidGroup a = true → isValidGroup b = true := by
  intro hv
  rw [isValidGroup_iff] at hv ⊢
  obtain ⟨hA, hB, hC⟩ := hv
  refine ⟨h.length_eq ▸ hA, ?_, ?_⟩
  · rw [find_anchor_iff] at hB ⊢
    obtain ⟨⟨w, hw, hwr⟩, hpair⟩ := hB
    refine ⟨⟨w, h.mem_iff.mp hw, hwr⟩, ?_⟩
    intro c hc d hd hcr hdr
    exact hpair c (h.mem_iff.mpr hc) d (h.mem_iff.mpr hd) hcr hdr
  · have hfilter : (a.filter fun c => !c.isWild).Perm (b.filter fun c => !c.isWild) :=
      h.filter _
    have hdedup := ((hfilter.map Card.suit).dedup).length_eq
    rw [← hdedup, ← hfilter.length_eq]
    exact hC

/-! ### Claim theorems, first batch -/

/-- Claim C1: full characterization of `isValidRun`.  For every card sequence,
the run validator accepts exactly when there are at least 3 tokens, at least
one non-wildcard exists (the anchor, found first), every non-wildcard's suit
equals the anchor's suit, and the pairwise walk over the ascending-sorted real
ranks pays every non-negative adjacent gap out of the wildcard budget; the four
listed concrete examples evaluate as the claim states. -/
theorem run_full_characterization :
    (∀ cards : List Card, isValidRun cards = true ↔
      3 ≤ cards.length ∧
      (∃ c0, cards.find? (fun c => !c.isWild) = some c0 ∧
        ∀ c ∈ cards, c.isWild = false → c.suit = c0.suit) ∧
      gapWalk (sortedRealRanks cards) (wildCount cards : Int) = true)
    ∧ isValidRun [Card.mk 'R' 1, Card.mk 'R' 2, Card.mk 'R' 3] = true
    ∧ isValidRun [Card.mk 'R' 1, Card.wild, Card.mk 'R' 3] = true
    ∧ isValidRun [Card.mk 'R' 1, Card.mk 'R' 3, Card.mk 'R' 5] = false
    ∧ isValidRun [Card.mk 'R' 1, Card.mk 'R' 2, Card.mk 'B' 3] = false :=
  ⟨isValidRun_iff, by decide, by decide, by decide, by decide⟩

/-- Claim C2: full characterization of `isValidGroup`.  For every card
sequence, the group validator accepts exactly when there are at least 3
tokens, a first non-wildcard anchor exists, every non-wildcard's rank equals
the anchor's rank, and the number of distinct suits among non-wildcards equals
the number of non-wildcards; the three listed concrete examples evaluate as
the claim states. -/
theorem group_full_characterization :
    (∀ cards : List Card, isValidGroup cards = true ↔
      3 ≤ cards.length ∧
      (∃ c0, cards.find? (fun c => !c.isWild) = some c0 ∧
        ∀ c ∈ cards, c.isWild = false → c.rank? = c0.rank?) ∧
      ((cards.filter fun c => !c.isWild).map Card.suit).dedup.length
        = (cards.filter fun c => !c.isWild).length)
    ∧ isValidGroup [Card.mk 'R' 5, Card.mk 'G' 5, Card.mk 'Y' 5] = true
    ∧ isValidGroup [Card.mk 'R' 5, Card.mk 'G' 5, Card.mk 'R' 5] = false
    ∧ isValidGroup [Card.wild, Card.wild, Card.wild] = false :=
  ⟨isValidGroup_iff, by decide, by decide, by decide⟩

/-- Claim C6: every card sequence with fewer than 3 cards fails
`isValidRun`, `isValidGroup`, and hence `isValidMeld`. -/
theorem min_meld_size (cards : List Card) (h : cards.length < 3) :
    isValidRun cards = false ∧ isValidGroup cards = false ∧
      isValidMeld cards = false := by
  have hr : isValidRun cards = false := by unfold isValidRun; rw [if_pos h]
  have hg : isValidGroup cards = false := by unfold isValidGroup; rw [if_pos h]
  refine ⟨hr, hg, ?_⟩
  unfold isValidMeld
  rw [hr, hg]
  rfl

/-- Witness for C6 at the concrete two-card input `["R1","R2"]`. -/
theorem min_meld_size_witness :
    isValidRun [Card.mk 'R' 1, Card.mk 'R' 2] = false ∧
    isValidGroup [Card.mk 'R' 1, Card.mk 'R' 2] = false ∧
    isValidMeld [Card.mk 'R' 1, Card.mk 'R' 2] = false :=
  min_meld_size [Card.mk 'R' 1, Card.mk 'R' 2] (by decide)

/-- Claim C8: meld validation is permutation invariant — reordering the card
tokens never changes the verdict of `isValidRun`, `isValidGroup`, or
`isValidMeld`. -/
theorem meld_perm_invariant (m p : List Card) (h : m.Perm p) :
    isValidRun m = isValidRun p ∧ isValidGroup m = isValidGroup p ∧
      isValidMeld m = isValidMeld p := by
  have hr : isValidRun m = isValidRun p :=
    bool_eq_of_imp (isValidRun_perm_mono h) (isValidRun_perm_mono h.symm)
  have hg : isValidGroup m = isValidGroup p :=
    bool_eq_of_imp (isValidGroup_perm_mono h) (isValidGroup_perm_mono h.symm)
  refine ⟨hr, hg, ?_⟩
  unfold isValidMeld
  rw [hr, hg]

/-- Witness for C8 at a concrete permuted pair. -/
theorem meld_perm_invariant_witness :
    isValidRun [Card.mk 'R' 1, Card.mk 'R' 2, Card.mk 'R' 3]
      = isValidRun [Card.mk 'R' 3, Card.mk 'R' 1, Card.mk 'R' 2] ∧
    isValidGroup [Card.mk 'R' 1, Card.mk 'R' 2, Card.mk 'R' 3]
      = isValidGroup [Card.mk 'R' 3, Card.mk 'R' 1, Card.mk 'R' 2] ∧
    isValidMeld [Card.mk 'R' 1, Card.mk 'R' 2, Card.mk 'R' 3]
      = isValidMeld [Card.mk 'R' 3, Card.mk 'R' 1, Card.mk 'R' 2] :=
  meld_perm_invariant [Card.mk 'R' 1, Card.mk 'R' 2, Card.mk 'R' 3]
    [Card.mk 'R' 3, Card.mk 'R' 1, Card.mk 'R' 2] (by decide)

/-! ### Closed form of the gap walk -/

lemma chain_lt_getLast (x : Int) (xs : List Int)
    (h : List.Chain' (· < ·) (x :: xs)) :
    x + xs.length ≤ (x :: xs).getLast?.getD 0 := by
  induction xs generalizing x with
  | nil => simp
  | cons y ys ih =>
    have hxy : x < y := (List.chain'_cons.mp h).1
    have hrest := ih y (List.chain'_cons.mp h).2
    rw [List.getLast?_cons_cons]
    simp only [List.length_cons]
    push_cast at hrest ⊢
    omega

lemma gapWalk_closed : ∀ (l : List Int) (w : Int), l.Sorted (· ≤ ·) → 0 ≤ w →
    l ≠ [] →
    (gapWalk l w = true ↔
      List.Chain' (· < ·) l ∧
        l.getLast?.getD 0 - l.head?.getD 0 + 1 - l.length ≤ w)
  | [], _, _, _, hne => absurd rfl hne
  | [x], w, _, hw, _ => by
    simp only [gapWalk, List.chain'_singleton, true_and, List.getLast?_singleton,
      List.head?_cons, Option.getD_some, List.length_cons, List.length_nil]
    constructor
    · intro _; push_cast; omega
    · intro _; trivial
  | a :: b :: rest, w, hs, hw, _ => by
    have hab : a ≤ b := (List.sorted_cons.mp hs).1 b (by simp)
    have hs' : (b :: rest).Sorted (· ≤ ·) := (List.sorted_cons.mp hs).2
    simp only [gapWalk]
    by_cases h1 : b - a - 1 < 0
    · rw [if_pos h1]
      constructor
      · intro h; simp at h
      · rintro ⟨hchain, -⟩
        have := (List.chain'_cons.mp hchain).1
        omega
    · rw [if_neg h1]
      by_cases h2 : b - a - 1 > w
      · rw [if_pos h2]
        constructor
        · intro h; simp at h
        · rintro ⟨hchain, hbound⟩
          exfalso
          have hch' := (List.chain'_cons.mp hchain).2
          have hlast := chain_lt_getLast b rest hch'
          rw [List.getLast?_cons_cons] at hbound
          simp only [List.head?_cons, Option.getD_some, List.length_cons] at hbound hlast ⊢
          push_cast at hbound hlast
          omega
      · rw [if_neg h2]
        have hw' : 0 ≤ w - (b - a - 1) := by omega
        rw [gapWalk_closed (b :: rest) (w - (b - a - 1)) hs' hw' (by simp)]
        rw [List.getLast?_cons_cons]
        constructor
        · rintro ⟨hchain, hbound⟩
          refine ⟨List.chain'_cons.mpr ⟨by omega, hchain⟩, ?_⟩
          simp only [List.head?_cons, Option.getD_some, List.length_cons] at hbound ⊢
          push_cast at hbound ⊢
          omega
        · rintro ⟨hchain, hbound⟩
          refine ⟨(List.chain'_cons.mp hchain).2, ?_⟩
          simp only [List.head?_cons, Option.getD_some, List.length_cons] at hbound ⊢
          push_cast at hbound ⊢
          omega

lemma sorted_chain_iff_nodup (l : List Int) (hs : l.Sorted (· ≤ ·)) :
    List.Chain' (· < ·) l ↔ l.Nodup := by
  rw [List.chain'_iff_pairwise]
  constructor
  · intro h; exact h.imp fun hlt => ne_of_lt hlt
  · intro h
    exact (hs.and h).imp fun hx => lt_of_le_of_ne hx.1 hx.2

lemma sorted_cons_min (a : Int) (t : List Int) (hs : (a :: t).Sorted (· ≤ ·)) :
    ∀ x ∈ a :: t, a ≤ x := by
  intro x hx
  rcases List.mem_cons.mp hx with rfl | hx
  · exact le_refl x
  · exact (List.sorted_cons.mp hs).1 x hx

lemma sorted_getLast_max : ∀ (l : List Int), l.Sorted (· ≤ ·) →
    ∀ x ∈ l, x ≤ l.getLast?.getD 0
  | [], _, x, hx => absurd hx (by simp)
  | [a], _, x, hx => by
    simp only [List.mem_singleton] at hx
    simp [hx]
  | a :: b :: t, hs, x, hx => by
    rw [List.getLast?_cons_cons]
    rcases List.mem_cons.mp hx with rfl | hx'
    · have hab : x ≤ b := (List.sorted_cons.mp hs).1 b (by simp)
      have hb := sorted_getLast_max (b :: t) (List.sorted_cons.mp hs).2 b (by simp)
      omega
    · exact sorted_getLast_max (b :: t) (List.sorted_cons.mp hs).2 x hx'

lemma sorted_minmax (l : List Int) (hs : l.Sorted (· ≤ ·)) (hne : l ≠ []) :
    l.head?.getD 0 ∈ l ∧ l.getLast?.getD 0 ∈ l ∧
      ∀ x ∈ l, l.head?.getD 0 ≤ x ∧ x ≤ l.getLast?.getD 0 := by
  obtain ⟨a, t, rfl⟩ : ∃ a t, l = a :: t := by
    cases l with
    | nil => exact absurd rfl hne
    | cons a t => exact ⟨a, t, rfl⟩
  refine ⟨by simp, ?_, ?_⟩
  · rw [List.getLast?_eq_getLast _ (by simp)]
    simp only [Option.getD_some]
    exact List.getLast_mem _
  · intro x hx
    exact ⟨by simpa using sorted_cons_min a t hs x hx,
      sorted_getLast_max _ hs x hx⟩

lemma minmax_unique (l : List Int) (hs : l.Sorted (· ≤ ·)) (hne : l ≠ [])
    (lo hi : Int) (hlo : lo ∈ l) (hhi : hi ∈ l)
    (hbound : ∀ x ∈ l, lo ≤ x ∧ x ≤ hi) :
    l.head?.getD 0 = lo ∧ l.getLast?.getD 0 = hi := by
  obtain ⟨hh, hl, hmm⟩ := sorted_minmax l hs hne
  constructor
  · have h1 := (hbound _ hh).1
    have h2 := (hmm _ hlo).1
    omega
  · have h1 := (hbound _ hl).2
    have h2 := (hmm _ hhi).2
    omega

/-- Claim C10: the sorted rank list walked by `isValidRun` contains no `null`
after trailing-`null` removal (so the loop branches that handle a `null`
element, and the re-anchoring branch for a `null` `lastNum`, are unreachable),
and `isValidRun` is extensionally the closed-form predicate: at least 3 cards,
at least one non-wildcard anchored on the first one with all non-wildcard
suits equal to its suit, all real ranks pairwise distinct, and the rank span
`max - min + 1` minus the number of real cards bounded by the wildcard
count. -/
theorem run_closed_form : ∀ cards : List Card,
    (walkInput cards).all Option.isSome = true ∧
    (isValidRun cards = true ↔
      3 ≤ cards.length ∧
      (∃ c0, cards.find? (fun c => !c.isWild) = some c0 ∧
        ∀ c ∈ cards, c.isWild = false → c.suit = c0.suit) ∧
      (realRanks cards).Nodup ∧
      ∃ lo ∈ realRanks cards, ∃ hi ∈ realRanks cards,
        (∀ x ∈ realRanks cards, lo ≤ x ∧ x ≤ hi) ∧
        hi - lo + 1 - (realRanks cards).length ≤ (wildCount cards : Int)) := by
  intro cards
  have hperm : (sortedRealRanks cards).Perm (realRanks cards) :=
    List.perm_insertionSort _ _
  have hsorted : (sortedRealRanks cards).Sorted (· ≤ ·) :=
    List.sorted_insertionSort _ _
  refine ⟨?_, ?_⟩
  · rw [walkInput_eq]
    simp [List.all_eq_true]
  · rw [isValidRun_iff]
    constructor
    · rintro ⟨hA, hB, hC⟩
      refine ⟨hA, hB, ?_⟩
      obtain ⟨c0, hfind, -⟩ := hB
      have hne : sortedRealRanks cards ≠ [] := sortedRealRanks_ne_nil hfind
      obtain ⟨hchain, hspan⟩ :=
        (gapWalk_closed (sortedRealRanks cards) _ hsorted
          (Int.natCast_nonneg _) hne).mp hC
      have hnodup : (realRanks cards).Nodup :=
        hperm.nodup_iff.mp ((sorted_chain_iff_nodup _ hsorted).mp hchain)
      refine ⟨hnodup, ?_⟩
      obtain ⟨hh, hl, hmm⟩ := sorted_minmax _ hsorted hne
      refine ⟨(sortedRealRanks cards).head?.getD 0, hperm.mem_iff.mp hh,
        (sortedRealRanks cards).getLast?.getD 0, hperm.mem_iff.mp hl, ?_, ?_⟩
      · intro x hx
        exact hmm x (hperm.mem_iff.mpr hx)
      · rw [← hperm.length_eq]
        omega
    · rintro ⟨hA, hB, hnodup, lo, hlo, hi, hhi, hbound, hineq⟩
      refine ⟨hA, hB, ?_⟩
      have hne : sortedRealRanks cards ≠ [] := by
        intro h
        have hlen := hperm.length_eq
        rw [h] at hlen
        have := List.length_pos_of_mem hlo
        simp at hlen
        omega
      apply (gapWalk_closed _ _ hsorted (Int.natCast_nonneg _) hne).mpr
      have hchain : List.Chain' (· < ·) (sortedRealRanks cards) :=
        (sorted_chain_iff_nodup _ hsorted).mpr (hperm.nodup_iff.mpr hnodup)
      refine ⟨hchain, ?_⟩
      obtain ⟨he1, he2⟩ := minmax_unique _ hsorted hne lo hi
        (hperm.mem_iff.mpr hlo) (hperm.mem_iff.mpr hhi)
        (fun x hx => hbound x (hperm.mem_iff.mp hx))
      rw [he1, he2, hperm.length_eq]
      exact hineq

/-! ### Board validation

`handleSubmit` (part_002 lines 360-365) collects, with a `reduce` that
pushes the index of each meld failing `isValidMeld`, the list of invalid
meld indices.  We embed the reduce as an index-carrying recursion. -/

def invalidMeldsFrom : Nat → List (List Card) → List Nat
  | _, [] => []
  | i, m :: rest =>
    if isValidMeld m then invalidMeldsFrom (i + 1) rest
    else i :: invalidMeldsFrom (i + 1) rest

/-- The invalid-meld index list computed by `handleSubmit`. -/
def invalidMeldIndices (board : List (List Card)) : List Nat :=
  invalidMeldsFrom 0 board

lemma mem_invalidMeldsFrom : ∀ (b : List (List Card)) (k i : Nat),
    i ∈ invalidMeldsFrom k b ↔
      ∃ j < b.length, i = k + j ∧ isValidMeld (b.getD j []) = false
  | [], k, i => by simp [invalidMeldsFrom]
  | m :: rest, k, i => by
    unfold invalidMeldsFrom
    by_cases hm : isValidMeld m
    · rw [if_pos hm, mem_invalidMeldsFrom rest (k + 1) i]
      constructor
      · rintro ⟨j, hj, rfl, hv⟩
        exact ⟨j + 1, by simpa using Nat.succ_lt_succ hj, by omega,
          by simpa using hv⟩
      · rintro ⟨j, hj, rfl, hv⟩
        cases j with
        | zero =>
          rw [List.getD_cons_zero] at hv
          rw [hm] at hv
          cases hv
        | succ j' =>
          refine ⟨j', by simpa using hj, by omega, ?_⟩
          rw [List.getD_cons_succ] at hv
          exact hv
    · rw [if_neg hm]
      rw [List.mem_cons, mem_invalidMeldsFrom rest (k + 1) i]
      constructor
      · rintro (rfl | ⟨j, hj, rfl, hv⟩)
        · exact ⟨0, by simp, by omega, by
            rw [List.getD_cons_zero]
            exact Bool.eq_false_iff.mpr hm⟩
        · exact ⟨j + 1, by simpa using Nat.succ_lt_succ hj, by omega,
            by simpa using hv⟩
      · rintro ⟨j, hj, rfl, hv⟩
        cases j with
        | zero => left; omega
        | succ j' =>
          right
          refine ⟨j', by simpa using hj, by omega, ?_⟩
          rw [List.getD_cons_succ] at hv
          exact hv

lemma invalidMeldsFrom_nil_iff : ∀ (b : List (List Card)) (k : Nat),
    invalidMeldsFrom k b = [] ↔ ∀ m ∈ b, isValidMeld m = true
  | [], k => by simp [invalidMeldsFrom]
  | m :: rest, k => by
    unfold invalidMeldsFrom
    by_cases hm : isValidMeld m
    · rw [if_pos hm, invalidMeldsFrom_nil_iff rest (k + 1)]
      simp [hm]
    · rw [if_neg hm]
      constructor
      · intro h
        exact absurd h (List.cons_ne_nil _ _)
      · intro h
        exact absurd (h m (by simp)) (by simpa using hm)

/-- Claim C7: `invalidMeldIndices` returns exactly the indices of melds
failing `isValidMeld`; it is empty precisely when every meld on the board is
valid, which is how `handleSubmit` decides the board is valid. -/
theorem board_invalid_indices :
    (∀ (board : List (List Card)) (i : Nat),
      i ∈ invalidMeldIndices board ↔
        i < board.length ∧ isValidMeld (board.getD i []) = false)
    ∧ ∀ board : List (List Card),
      invalidMeldIndices board = [] ↔ ∀ m ∈ board, isValidMeld m = true := by
  constructor
  · intro board i
    unfold invalidMeldIndices
    rw [mem_invalidMeldsFrom]
    constructor
    · rintro ⟨j, hj, rfl, hv⟩
      exact ⟨by omega, by simpa using hv⟩
    · rintro ⟨hi, hv⟩
      exact ⟨i, hi, by omega, hv⟩
  · intro board
    exact invalidMeldsFrom_nil_iff board 0

/-! ### Scoring model

Strings the source parses character-by-character (the serialized optimal
solutions and the date keys) are embedded as `List Char`; JavaScript's
`String.prototype.split` with a one-character separator is the structural
`splitOnChar` below, which like JS maps `""` to `[""]` and keeps empty
pieces. -/

/-- JS `str.split(sep)` for a single-character separator. -/
def splitOnChar (sep : Char) : List Char → List (List Char)
  | [] => [[]]
  | c :: rest =>
    match splitOnChar sep rest with
    | [] => [[]]
    | piece :: pieces =>
      if c = sep then [] :: piece :: pieces
      else (c :: piece) :: pieces

/-- The puzzle record of `data/puzzles2.json` (part_002 lines 3-14, with the
nested `score` object flattened into its two fields). -/
structure Puzzle where
  date : List Char
  initial_cards : List Card
  possible_card_counts : List (Nat × Bool)
  optimal_solutions : List (List Char)
  optimal_solution_cards : List (List Char)
  include_wildcards : Bool
  max_cards_used : Nat
  num_optimal_solutions : Nat
deriving DecidableEq

/-- The component state read and written by `handleSubmit` (part_002).
Timer state (`startTime`, `solveTime`) is presentation-only and omitted. -/
structure GameState where
  board : List (List Card)
  hand : List Card
  usedCardCounts : List Nat
  score : Nat
  showSuccess : Bool
  feedback : Option String
  failCount : Nat
  invalidMelds : List Nat
deriving DecidableEq

/-- `board.reduce((sum, meld) => sum + meld.length, 0)`. -/
def boardCardsUsed (board : List (List Card)) : Nat :=
  board.foldl (fun sum meld => sum + meld.length) 0

/-- `puzzle.possible_card_counts[n]` coerced to a boolean: a missing key is
`undefined`, which is falsy.  JavaScript object keys are unique, matching the
first-match semantics of `List.lookup`. -/
def countFlag (p : Puzzle) (n : Nat) : Bool :=
  (p.possible_card_counts.lookup n).getD false

/-- `Object.keys(puzzle.possible_card_counts).filter(k => map[k]).length`. -/
def achievableCount (p : Puzzle) : Nat :=
  (p.possible_card_counts.filter fun kv => kv.2).length

/-- Total card count of one serialized optimal solution (part_002 lines
383-392): split on `'|'` into meld specs, split each spec on `':'` and take
the part after the colon, split that on `','` and count the cards.  The
source trims every piece, which never changes how many pieces there are, so
the trims are dropped; on a spec with no `':'` the source would throw on
`undefined.split`, modeled by reading the missing part as the empty string. -/
def solutionCardTotal (sol : List Char) : Nat :=
  (splitOnChar '|' sol).foldl
    (fun sum meld =>
      sum + (splitOnChar ',' ((splitOnChar ':' meld).getD 1 [])).length) 0

/-- `handleSubmit` from part_002 (lines 356-415) as a state transition.
React state setters are modeled as record updates; the completion check reads
the pre-update `usedCardCounts` (the source closes over the old state), hence
the `st.usedCardCounts.length + 1`. -/
def handleSubmit (p : Puzzle) (st : GameState) : GameState :=
  let invalid := invalidMeldIndices st.board
  if invalid.length > 0 then
    { st with
      invalidMelds := invalid
      feedback := some "Some melds are invalid"
      failCount := st.failCount + 1 }
  else
    let totalCardsUsed := boardCardsUsed st.board
    if countFlag p totalCardsUsed && !(st.usedCardCounts.contains totalCardsUsed) then
      let isOptimal := p.optimal_solutions.any fun sol =>
        solutionCardTotal sol == totalCardsUsed
      let pointsToAdd : Nat := if isOptimal then 5 else 2
      let st1 : GameState :=
        { st with
          invalidMelds := invalid
          usedCardCounts := st.usedCardCounts ++ [totalCardsUsed]
          score := st.score + pointsToAdd
          feedback := some (if isOptimal then "Optimal solution! +5 points"
            else "Valid solution! +2 points") }
      if st.usedCardCounts.length + 1 == achievableCount p then
        { st1 with showSuccess := true }
      else st1
    else
      { st with
        invalidMelds := invalid
        feedback := some "This card count has already been used or is not possible"
        failCount := st.failCount + 1 }

/-- Shared concrete fixture: a one-run board worth 3 cards. -/
def sampleMeld : List Card := [Card.mk 'R' 1, Card.mk 'R' 2, Card.mk 'R' 3]

/-- Shared concrete fixture: a puzzle whose only achievable count is 3,
with one recorded optimal solution `"S1:R1,R2,R3"` of card total 3. -/
def samplePuzzle : Puzzle where
  date := ['2', '0', '2', '5', '-', '0', '1', '-', '0', '1']
  initial_cards := sampleMeld
  possible_card_counts := [(3, true)]
  optimal_solutions := [['S', '1', ':', 'R', '1', ',', 'R', '2', ',', 'R', '3']]
  optimal_solution_cards := []
  include_wildcards := false
  max_cards_used := 3
  num_optimal_solutions := 1

/-- Shared concrete fixture: a fresh session with `sampleMeld` on the board. -/
def sampleState : GameState where
  board := [sampleMeld]
  hand := []
  usedCardCounts := []
  score := 0
  showSuccess := false
  feedback := none
  failCount := 0
  invalidMelds := []

/-- Shared concrete fixture: the same session after count 3 was claimed. -/
def claimedState : GameState :=
  { sampleState with usedCardCounts := [3] }

/-- Claim C3: an accepted submission (all melds valid, total flagged
achievable, not yet claimed) awards 5 points when the total card count equals
the parsed card total of some pre-recorded optimal solution and 2 points
otherwise, and appends the achieved count to the claimed set. -/
theorem score_award_rule (p : Puzzle) (st : GameState)
    (hvalid : ∀ m ∈ st.board, isValidMeld m = true)
    (hach : countFlag p (boardCardsUsed st.board) = true)
    (hnew : boardCardsUsed st.board ∉ st.usedCardCounts) :
    (handleSubmit p st).score = st.score +
      (if ∃ sol ∈ p.optimal_solutions,
          solutionCardTotal sol = boardCardsUsed st.board then 5 else 2) ∧
    (handleSubmit p st).usedCardCounts
      = st.usedCardCounts ++ [boardCardsUsed st.board] := by
  have hinv : invalidMeldIndices st.board = [] :=
    (invalidMeldsFrom_nil_iff st.board 0).mpr hvalid
  have hcont : st.usedCardCounts.contains (boardCardsUsed st.board) = false := by
    simpa using hnew
  simp only [handleSubmit, hinv, hach, hcont, List.length_nil, gt_iff_lt,
    Nat.lt_irrefl, if_false, Bool.not_false, Bool.and_true, if_true]
  constructor
  · split <;> simp [List.any_eq_true, beq_iff_eq]
  · split <;> simp

/-- Witness for C3: submitting the 3-card sample board on the sample puzzle
(whose optimal solution also uses 3 cards) awards the optimal points and
records the count. -/
theorem score_award_rule_witness :
    (handleSubmit samplePuzzle sampleState).score = sampleState.score +
      (if ∃ sol ∈ samplePuzzle.optimal_solutions,
          solutionCardTotal sol = boardCardsUsed sampleState.board then 5 else 2) ∧
    (handleSubmit samplePuzzle sampleState).usedCardCounts
      = sampleState.usedCardCounts ++ [boardCardsUsed sampleState.board] :=
  score_award_rule samplePuzzle sampleState (by decide) (by decide) (by decide)

/-- Claim C4: a submission with a fully valid board whose total is not
flagged achievable, or was already claimed, awards nothing: score, claimed
set, and completion flag are unchanged and only feedback is set. -/
theorem score_reject_atomic (p : Puzzle) (st : GameState)
    (hvalid : ∀ m ∈ st.board, isValidMeld m = true)
    (hrej : countFlag p (boardCardsUsed st.board) = false ∨
      boardCardsUsed st.board ∈ st.usedCardCounts) :
    (handleSubmit p st).score = st.score ∧
    (handleSubmit p st).usedCardCounts = st.usedCardCounts ∧
    (handleSubmit p st).showSuccess = st.showSuccess ∧
    (handleSubmit p st).feedback
      = some "This card count has already been used or is not possible" := by
  have hinv : invalidMeldIndices st.board = [] :=
    (invalidMeldsFrom_nil_iff st.board 0).mpr hvalid
  have hcond : ¬(countFlag p (boardCardsUsed st.board) = true ∧
      boardCardsUsed st.board ∉ st.usedCardCounts) := by
    rcases hrej with h | h
    · rintro ⟨h1, -⟩
      rw [h] at h1
      cases h1
    · rintro ⟨-, h2⟩
      exact h2 h
  simp [handleSubmit, hinv, hcond]

/-- Witness for C4: resubmitting the already-claimed count 3 is rejected
without touching score or claimed counts. -/
theorem score_reject_atomic_witness :
    (handleSubmit samplePuzzle claimedState).score = claimedState.score ∧
    (handleSubmit samplePuzzle claimedState).usedCardCounts
      = claimedState.usedCardCounts ∧
    (handleSubmit samplePuzzle claimedState).showSuccess
      = claimedState.showSuccess ∧
    (handleSubmit samplePuzzle claimedState).feedback
      = some "This card count has already been used or is not possible" :=
  score_reject_atomic samplePuzzle claimedState (by decide) (Or.inr (by decide))

/-- Claim C5: starting from a session whose completion flag is down and whose
claimed counts are duplicate-free, a submission raises the completion flag
exactly when it is accepted and the resulting number of distinct claimed
counts equals the number of counts flagged achievable: no other path raises
it. -/
theorem completion_signal (p : Puzzle) (st : GameState)
    (hnodup : st.usedCardCounts.Nodup) (hstart : st.showSuccess = false) :
    (handleSubmit p st).showSuccess = true ↔
      ((∀ m ∈ st.board, isValidMeld m = true) ∧
        countFlag p (boardCardsUsed st.board) = true ∧
        boardCardsUsed st.board ∉ st.usedCardCounts ∧
        (handleSubmit p st).usedCardCounts.dedup.length = achievableCount p) := by
  by_cases hval : ∀ m ∈ st.board, isValidMeld m = true
  · have hinv : invalidMeldIndices st.board = [] :=
      (invalidMeldsFrom_nil_iff st.board 0).mpr hval
    by_cases hflag : countFlag p (boardCardsUsed st.board) = true
    · by_cases hmem : boardCardsUsed st.board ∈ st.usedCardCounts
      · have hcond : ¬(countFlag p (boardCardsUsed st.board) = true ∧
            boardCardsUsed st.board ∉ st.usedCardCounts) := fun hc => hc.2 hmem
        simp only [handleSubmit, hinv, List.length_nil, gt_iff_lt, Nat.lt_irrefl,
          if_false]
        simp [hcond, hstart, hmem]
      · have hcont : st.usedCardCounts.contains (boardCardsUsed st.board) = false := by
          simpa using hmem
        have hnodup' : (st.usedCardCounts ++ [boardCardsUsed st.board]).Nodup := by
          simp [List.nodup_append, hnodup, hmem]
        have hdedup : (st.usedCardCounts ++ [boardCardsUsed st.board]).dedup.length
            = st.usedCardCounts.length + 1 := by
          rw [List.dedup_eq_self.mpr hnodup']
          simp
        simp only [handleSubmit, hinv, hflag, hcont, List.length_nil, gt_iff_lt,
          Nat.lt_irrefl, if_false, Bool.not_false, Bool.and_true, if_true]
        split
        next h =>
          have hach2 : st.usedCardCounts.length + 1 = achievableCount p := by
            simpa using h
          simp [hflag, hmem, hdedup, hach2]
          exact hval
        next h =>
          have hne2 : st.usedCardCounts.length + 1 ≠ achievableCount p := by
            simpa using h
          simp [hstart, hval, hflag, hmem, hdedup, hne2]
    · have hcond : ¬(countFlag p (boardCardsUsed st.board) = true ∧
          boardCardsUsed st.board ∉ st.usedCardCounts) := fun hc => hflag hc.1
      simp only [handleSubmit, hinv, List.length_nil, gt_iff_lt, Nat.lt_irrefl,
        if_false]
      simp [hcond, hstart, hflag]
  · have hne : invalidMeldIndices st.board ≠ [] := fun h =>
      hval ((invalidMeldsFrom_nil_iff st.board 0).mp h)
    have hlen : 0 < (invalidMeldIndices st.board).length := List.length_pos.mpr hne
    simp [handleSubmit, if_pos hlen, hstart, hval]

/-! ### The date-lookup endpoint

`src/pages/api/today.ts` resolves a requested `YYYY-MM-DD` key against the
static puzzle array.  The ambient clock enters only through "today's date in
EST", modeled as an explicit `DateYMD` parameter.  `Date.UTC(y, m - 1, d)`
comparison is strictly monotone in the lexicographic `(y, m, d)` order for
calendar-valid components, which is how we embed it; `Number()` applied to
the digit components of a well-formed key is the digit-fold below (a
non-digit or empty component makes the JS `Date` invalid, so every
comparison with it is false, modeled by `none`). -/

structure DateYMD where
  year : Nat
  month : Nat
  day : Nat
deriving DecidableEq

/-- `targetDateObj > todayEST` via `Date.UTC`, lexicographic on `(y, m, d)`. -/
def dateLtB (a b : DateYMD) : Bool :=
  a.year < b.year || (a.year == b.year &&
    (a.month < b.month || (a.month == b.month && a.day < b.day)))

/-- JS `Number()` on one dash-separated component of a date key. -/
def parseNat? (cs : List Char) : Option Nat :=
  if cs ≠ [] ∧ cs.all Char.isDigit then
    some (cs.foldl (fun n c => n * 10 + (c.toNat - 48)) 0)
  else none

/-- `const [year, month, day] = targetDate.split('-').map(Number)`:
the first three components, extra components ignored, missing or non-numeric
components poisoning the parse. -/
def parseYMD (s : List Char) : Option DateYMD :=
  match splitOnChar '-' s with
  | y :: m :: d :: _ =>
    match parseNat? y, parseNat? m, parseNat? d with
    | some a, some b, some c => some ⟨a, b, c⟩
    | _, _, _ => none
  | _ => none

/-- `targetDateObj > todayEST && year !== 2025` (today.ts lines 35-40):
an unparseable date gives an invalid `Date`, whose comparisons are all
false. -/
def isFutureBlocked (todayEST : DateYMD) (targetDate : List Char) : Bool :=
  match parseYMD targetDate with
  | some dt => dateLtB todayEST dt && dt.year != 2025
  | none => false

/-- The `{ puzzle, error }` JSON body of the endpoint. -/
structure LookupResult where
  puzzle : Option Puzzle
  error : Option String
deriving DecidableEq

/-- The today.ts handler (lines 32-58) after the query parameter has been
resolved to a concrete requested date key. -/
def todayLookup (dataset : List Puzzle) (todayEST : DateYMD)
    (targetDate : List Char) : LookupResult :=
  if isFutureBlocked todayEST targetDate then
    ⟨none, some "No Puzzle Available Yet"⟩
  else
    match dataset.find? fun p => p.date == targetDate with
    | some p => ⟨some p, none⟩
    | none => ⟨none, some "No Puzzle for this date"⟩

/-- Fixture for C9: a puzzle dated 2030-01-02, present in the dataset. -/
def futurePuzzle : Puzzle where
  date := ['2', '0', '3', '0', '-', '0', '1', '-', '0', '2']
  initial_cards := []
  possible_card_counts := []
  optimal_solutions := []
  optimal_solution_cards := []
  include_wildcards := false
  max_cards_used := 0
  num_optimal_solutions := 0

/-- Claim C9 counterexample: the dataset contains a record whose date equals
the requested key `2030-01-02`, yet with today at 2026-10-11 the endpoint
returns a null puzzle and an error instead of that record — the future-date
guard runs before the lookup, so the claim as stated fails. -/
theorem today_lookup_counterexample :
    futurePuzzle ∈ [futurePuzzle] ∧
    futurePuzzle.date = ['2', '0', '3', '0', '-', '0', '1', '-', '0', '2'] ∧
    (todayLookup [futurePuzzle] ⟨2026, 10, 11⟩
      ['2', '0', '3', '0', '-', '0', '1', '-', '0', '2']).puzzle = none ∧
    (todayLookup [futurePuzzle] ⟨2026, 10, 11⟩
      ['2', '0', '3', '0', '-', '0', '1', '-', '0', '2']).error
      = some "No Puzzle Available Yet" := by
  refine ⟨by simp, rfl, rfl, rfl⟩

/-- Claim C9 (amended): for a requested date key that the future-date guard
does not block (not strictly later than today-in-EST, or blocked-exempt year
2025), the endpoint returns the puzzle record whose date field equals the key
when one exists and otherwise a null puzzle with an error message; a blocked
key gets a null puzzle with "No Puzzle Available Yet" even when a matching
record exists.  The handler is a total function — no raised fault. -/
theorem today_lookup_date_rule (dataset : List Puzzle) (todayEST : DateYMD)
    (targetDate : List Char) :
    (isFutureBlocked todayEST targetDate = false →
      todayLookup dataset todayEST targetDate =
        match dataset.find? fun p => p.date == targetDate with
        | some p => ⟨some p, none⟩
        | none => ⟨none, some "No Puzzle for this date"⟩) ∧
    (isFutureBlocked todayEST targetDate = true →
      todayLookup dataset todayEST targetDate =
        ⟨none, some "No Puzzle Available Yet"⟩) := by
  constructor
  · intro h
    unfold todayLookup
    rw [h]
    simp
  · intro h
    unfold todayLookup
    rw [h]
    simp

/-- Witness for the amended C9 at concrete inputs: an unblocked key on the
empty dataset yields the not-found response. -/
theorem today_lookup_date_rule_witness :
    todayLookup [] ⟨2026, 10, 11⟩
        ['2', '0', '2', '5', '-', '0', '1', '-', '0', '1'] =
      match List.find?
          (fun p => p.date == ['2', '0', '2', '5', '-', '0', '1', '-', '0', '1'])
          ([] : List Puzzle) with
      | some p => ⟨some p, none⟩
      | none => ⟨none, some "No Puzzle for this date"⟩ :=
  (today_lookup_date_rule [] ⟨2026, 10, 11⟩
    ['2', '0', '2', '5', '-', '0', '1', '-', '0', '1']).1 (by rfl)

/-- Witness for C5 at the sample session: submitting the sample board with
the flag down and no claimed counts instantiates the completion equivalence. -/
theorem completion_signal_witness :
    (handleSubmit samplePuzzle sampleState).showSuccess = true ↔
      ((∀ m ∈ sampleState.board, isValidMeld m = true) ∧
        countFlag samplePuzzle (boardCardsUsed sampleState.board) = true ∧
        boardCardsUsed sampleState.board ∉ sampleState.usedCardCounts ∧
        (handleSubmit samplePuzzle sampleState).usedCardCounts.dedup.length
          = achievableCount samplePuzzle) :=
  completion_signal samplePuzzle sampleState (by decide) (by decide)

end RummyPuzzles
